import Mathlib

/-!
# Verification of the Hybrid Retrieval Engine

Shallow embedding of the retrieval core of the biomedical RAG backend
(`src/backend/src/api/v1/vectordb.py` and
`src/backend/src/services/embedding/chunker.py`) together with proofs and
refutations of the frozen specification claims.

Modelling conventions:
* Python floats are modelled as exact rationals (`ℚ`).  `round(x, n)` is
  modelled as ideal decimal rounding (round-half-to-even, Python's rule).
* Python dicts are modelled as association lists in insertion order with
  insert-or-replace update, matching CPython dict semantics.
* Python's stable `list.sort(key=..., reverse=True)` is modelled by a stable
  insertion sort on a rational key, descending (equal keys keep input order).
* External collaborators (OpenAI embeddings, the OpenAI chat completion used
  for query expansion, the Qdrant oracle) are parameters of an `Env` record,
  exactly at the interface boundary the code observes: an `Option` result
  where `none` captures "not configured / request failed / exception".
* `math.log` and floating-point cosine similarity produce irrational values,
  so they are carried as abstract function parameters (`log` of `fit`,
  `cosine` of the environment); no claim below depends on their values.
* Fallible arithmetic (`ZeroDivisionError` in the BM25 denominator) is made
  explicit: scoring returns `Option`, with `none` marking the exception.
-/

/- Batteries marks the `Rat` field operations `@[irreducible]`, which blocks
`decide`-style kernel evaluation of concrete rational arithmetic; scores in
this development are exact rationals, so re-enable unfolding locally. -/
attribute [local semireducible] Rat.add Rat.mul Rat.inv Rat.sub Rat.ofScientific

/-! ## Python primitives: whitespace split, strip, lower, tokenizer -/

/-- `c` counts as whitespace for Python's `str.split()` / `str.strip()`. -/
def pyIsWs (c : Char) : Bool := c = ' ' ∨ c = '\t' ∨ c = '\n' ∨ c = '\r'

/-- One step of whitespace splitting over a character list: returns the
pending word (reversed) and the finished words so far. -/
def pySplitWsAux : List Char → List Char → List String → List String
  | [], cur, acc =>
    if cur.isEmpty then acc.reverse else (String.mk cur.reverse :: acc).reverse
  | c :: cs, cur, acc =>
    if pyIsWs c then
      if cur.isEmpty then pySplitWsAux cs [] acc
      else pySplitWsAux cs [] (String.mk cur.reverse :: acc)
    else pySplitWsAux cs (c :: cur) acc

/-- Python `str.split()` (no argument): split on whitespace runs, dropping
empty pieces. -/
def pySplitWs (s : String) : List String := pySplitWsAux s.toList [] []

/-- Python `str.strip()`: drop leading and trailing whitespace. -/
def pyStrip (s : String) : String :=
  String.mk ((s.toList.dropWhile (pyIsWs ·)).reverse.dropWhile (pyIsWs ·)).reverse

/-- Python `str.lower()` (ASCII fragment, which is all the code relies on). -/
def pyLower (s : String) : String := String.mk (s.toList.map Char.toLower)

/-- Does `n` occur as a contiguous run of `hay`?  (Helper for Python's
`needle in hay` substring test.) -/
def substrList (n : List Char) : List Char → Bool
  | [] => n.isEmpty
  | c :: cs => n.isPrefixOf (c :: cs) || substrList n cs

/-- Python `needle in hay` substring test. -/
def pySubstr (needle hay : String) : Bool := substrList needle.toList hay.toList

/-- Helper for Python `s.split(",")`. -/
def splitCommaAux : List Char → List Char → List String
  | [], cur => [String.mk cur.reverse]
  | c :: cs, cur =>
    if c = ',' then String.mk cur.reverse :: splitCommaAux cs []
    else splitCommaAux cs (c :: cur)

/-- Python `s.split(",")`: split at every comma, keeping empty pieces
(`"".split(",") == [""]`). -/
def pySplitComma (s : String) : List String := splitCommaAux s.toList []

/-- A character kept by `re.sub(r'[^\w\s\-]', ' ', text)`: word characters,
whitespace and hyphens survive, everything else becomes a space. -/
def keptByTokenizer (c : Char) : Bool :=
  c.isAlphanum ∨ c = '_' ∨ pyIsWs c ∨ c = '-'

/-- `SPLADESearch._tokenize`: lowercase, replace everything outside
`[\w\s\-]` by a space, split on whitespace, keep tokens of length `> 1`. -/
def pyTokenize (text : String) : List String :=
  let lowered := text.toList.map Char.toLower
  let cleaned := lowered.map (fun c => if keptByTokenizer c then c else ' ')
  (pySplitWs (String.mk cleaned)).filter (fun t => t.length > 1)

/-! ## Python dicts as insertion-ordered association lists -/

/-- CPython dict assignment `d[k] = v`: replace in place if the key exists,
append otherwise. -/
def dictInsert (k : String) (v : α) : List (String × α) → List (String × α)
  | [] => [(k, v)]
  | p :: ps => if p.1 = k then (k, v) :: ps else p :: dictInsert k v ps

/-- Dict lookup `d.get(k)` / `k in d`. -/
def dictLookup (k : String) : List (String × α) → Option α
  | [] => none
  | p :: ps => if p.1 = k then some p.2 else dictLookup k ps

/-- Build a dict from a list of pairs (later pairs overwrite earlier ones),
as in a Python dict comprehension. -/
def dictOfList (ps : List (String × α)) : List (String × α) :=
  ps.foldl (fun d p => dictInsert p.1 p.2 d) []

theorem dictLookup_dictInsert (k k' : String) (v : α) (d : List (String × α)) :
    dictLookup k' (dictInsert k v d) = if k' = k then some v else dictLookup k' d := by
  induction d with
  | nil =>
    by_cases h : k' = k
    · simp [dictInsert, dictLookup, h]
    · have h' : ¬ k = k' := fun e => h e.symm
      simp [dictInsert, dictLookup, h, h']
  | cons p ps ih =>
    by_cases h1 : p.1 = k
    · by_cases h2 : k' = k
      · simp [dictInsert, dictLookup, h1, h2]
      · have h3 : ¬ k = k' := fun e => h2 e.symm
        have h4 : ¬ p.1 = k' := by rw [h1]; exact h3
        simp [dictInsert, dictLookup, h1, h2, h3, h4]
    · by_cases h2 : p.1 = k'
      · have h3 : ¬ k' = k := fun e => h1 (h2.trans e)
        simp [dictInsert, dictLookup, h1, h2, h3]
      · simp [dictInsert, dictLookup, h1, h2, ih]

theorem mem_dictInsert (k : String) (v : α) (d : List (String × α)) (p : String × α) :
    p ∈ dictInsert k v d → p = (k, v) ∨ p ∈ d := by
  induction d with
  | nil => simp [dictInsert]
  | cons q qs ih =>
    by_cases h : q.1 = k
    · simp only [dictInsert, h, if_true, List.mem_cons]
      rintro (h' | h') <;> simp [h']
    · simp only [dictInsert, h, if_false, List.mem_cons]
      rintro (h' | h')
      · simp [h']
      · rcases ih h' with h'' | h'' <;> simp [h'']

/-- Every entry of a dict built from `ps` is an entry of `ps`. -/
theorem mem_dictOfList (ps : List (String × α)) (p : String × α) :
    p ∈ dictOfList ps → p ∈ ps := by
  have key : ∀ (l : List (String × α)) (d : List (String × α)),
      p ∈ l.foldl (fun d q => dictInsert q.1 q.2 d) d → p ∈ d ∨ p ∈ l := by
    intro l
    induction l with
    | nil => intro d h; exact Or.inl h
    | cons q qs ih =>
      intro d h
      rcases ih (dictInsert q.1 q.2 d) h with h' | h'
      · rcases mem_dictInsert _ _ _ _ h' with h'' | h''
        · right; simp [h'']
        · exact Or.inl h''
      · right; exact List.mem_cons_of_mem _ h'
  intro h
  rcases key ps [] h with h' | h'
  · simp at h'
  · exact h'

/-- A successful lookup in a dict built from `ps` returns the value of some
pair of `ps` with that key. -/
theorem dictLookup_dictOfList (ps : List (String × α)) (k : String) (v : α) :
    dictLookup k (dictOfList ps) = some v → (k, v) ∈ ps := by
  have key : ∀ (l : List (String × α)) (d : List (String × α)),
      dictLookup k (l.foldl (fun d q => dictInsert q.1 q.2 d) d) = some v →
      (k, v) ∈ l ∨ dictLookup k d = some v := by
    intro l
    induction l with
    | nil => intro d h; exact Or.inr h
    | cons q qs ih =>
      intro d h
      rcases ih (dictInsert q.1 q.2 d) h with h' | h'
      · exact Or.inl (List.mem_cons_of_mem _ h')
      · rw [dictLookup_dictInsert] at h'
        split at h'
        · left
          rename_i hk
          have : (k, v) = q := by
            cases q with
            | mk q1 q2 => cases h'; cases hk; rfl
          simp [this]
        · exact Or.inr h'
  intro h
  rcases key ps [] h with h' | h'
  · exact h'
  · simp [dictLookup] at h'

/-- Lookup after a batch of inserts: new entries win, otherwise the original
dict is consulted.  (Used to characterise the residue `fit` leaves in `idf`.) -/
theorem dictLookup_foldl_dictInsert (es : List (String × α)) :
    ∀ (d : List (String × α)) (k : String),
      dictLookup k (es.foldl (fun m e => dictInsert e.1 e.2 m) d) =
        (dictLookup k (es.foldl (fun m e => dictInsert e.1 e.2 m) [])).orElse
          (fun _ => dictLookup k d) := by
  induction es with
  | nil => intro d k; simp [dictLookup]
  | cons e es ih =>
    intro d k
    simp only [List.foldl_cons]
    rw [ih (dictInsert e.1 e.2 d) k, ih (dictInsert e.1 e.2 []) k]
    rcases h : dictLookup k (es.foldl (fun m e => dictInsert e.1 e.2 m) []) with _ | v
    · simp only [Option.orElse, h]
      rw [dictLookup_dictInsert, dictLookup_dictInsert]
      split <;> simp [dictLookup]
    · simp [Option.orElse, h]

/-! ## Python's stable sort (`list.sort(key=..., reverse=True)`) -/

/-- Insert `x` after every element whose key is `≥ key x` (descending stable
insertion). -/
def insertByDesc (key : α → ℚ) (x : α) : List α → List α
  | [] => [x]
  | y :: ys => if key x ≤ key y then y :: insertByDesc key x ys else x :: y :: ys

/-- Stable sort, descending by `key`: equal-key elements keep input order,
exactly like CPython's `list.sort(key=..., reverse=True)`. -/
def sortByDesc (key : α → ℚ) (l : List α) : List α :=
  l.foldl (fun acc x => insertByDesc key x acc) []

theorem insertByDesc_perm (key : α → ℚ) (x : α) (l : List α) :
    List.Perm (insertByDesc key x l) (x :: l) := by
  induction l with
  | nil => simp [insertByDesc]
  | cons y ys ih =>
    simp only [insertByDesc]
    split
    · exact List.Perm.trans (List.Perm.cons y ih) (List.Perm.swap x y ys)
    · exact List.Perm.refl _

theorem sortByDesc_perm (key : α → ℚ) (l : List α) :
    List.Perm (sortByDesc key l) l := by
  have key' : ∀ (l acc : List α),
      List.Perm (l.foldl (fun acc x => insertByDesc key x acc) acc) (acc ++ l) := by
    intro l
    induction l with
    | nil => intro acc; simp
    | cons x xs ih =>
      intro acc
      have h1 : List.Perm
          (xs.foldl (fun acc x => insertByDesc key x acc) (insertByDesc key x acc))
          (insertByDesc key x acc ++ xs) := ih _
      have h2 : List.Perm (insertByDesc key x acc ++ xs) ((x :: acc) ++ xs) :=
        (insertByDesc_perm key x acc).append_right xs
      have h3 : List.Perm ((x :: acc) ++ xs) (acc ++ x :: xs) := by
        have hmid := (List.perm_middle : List.Perm (acc ++ x :: xs) (x :: (acc ++ xs)))
        simpa using hmid.symm
      simpa using (h1.trans (h2.trans h3))
  simpa using key' l []

theorem mem_sortByDesc (key : α → ℚ) (l : List α) (a : α) :
    a ∈ sortByDesc key l ↔ a ∈ l :=
  (sortByDesc_perm key l).mem_iff

/-- Descending-sortedness invariant used for the stability proof. -/
def SortedDesc (key : α → ℚ) (l : List α) : Prop :=
  l.Pairwise (fun a b => key b ≤ key a)

theorem insertByDesc_sorted (key : α → ℚ) (x : α) (l : List α)
    (h : SortedDesc key l) : SortedDesc key (insertByDesc key x l) := by
  induction l with
  | nil => simp [insertByDesc, SortedDesc]
  | cons y ys ih =>
    rcases List.pairwise_cons.mp h with ⟨hy, hys⟩
    simp only [insertByDesc]
    split
    · rename_i hxy
      refine List.pairwise_cons.mpr ⟨?_, ih hys⟩
      intro b hb
      rcases List.mem_cons.mp ((insertByDesc_perm key x ys).mem_iff.mp hb) with h' | h'
      · rw [h']; exact hxy
      · exact hy b h'
    · rename_i hxy
      push_neg at hxy
      refine List.pairwise_cons.mpr ⟨?_, h⟩
      intro b hb
      rcases List.mem_cons.mp hb with h' | h'
      · rw [h']; exact le_of_lt hxy
      · exact le_trans (hy b h') (le_of_lt hxy)

theorem sortByDesc_sorted (key : α → ℚ) (l : List α) :
    SortedDesc key (sortByDesc key l) := by
  have key' : ∀ (l acc : List α), SortedDesc key acc →
      SortedDesc key (l.foldl (fun acc x => insertByDesc key x acc) acc) := by
    intro l
    induction l with
    | nil => intro acc h; simpa using h
    | cons x xs ih =>
      intro acc h
      simpa using ih (insertByDesc key x acc) (insertByDesc_sorted key x acc h)
  exact key' l [] (by simp [SortedDesc])

/-- On a descending-sorted list, all elements strictly below `v` contribute
nothing to the filter at `v`. -/
theorem filter_eq_nil_of_forall_lt (key : α → ℚ) (v : ℚ) (l : List α)
    (hall : ∀ a ∈ l, key a < v) :
    l.filter (fun y => decide (key y = v)) = [] := by
  induction l with
  | nil => simp
  | cons y ys ih =>
    have hy : key y < v := hall y (List.mem_cons_self y ys)
    have : ¬ key y = v := ne_of_lt hy
    simp only [List.filter_cons, decide_eq_true_eq, this, if_false]
    exact ih (fun a ha => hall a (List.mem_cons_of_mem _ ha))

/-- Stability of one descending insertion: at any key value, the inserted
element lands after all previously present elements of that value. -/
theorem filter_insertByDesc (key : α → ℚ) (v : ℚ) (x : α) (l : List α)
    (h : SortedDesc key l) :
    (insertByDesc key x l).filter (fun y => decide (key y = v)) =
      if key x = v then l.filter (fun y => decide (key y = v)) ++ [x]
      else l.filter (fun y => decide (key y = v)) := by
  induction l with
  | nil =>
    by_cases hx : key x = v <;> simp [insertByDesc, List.filter, hx]
  | cons y ys ih =>
    rcases List.pairwise_cons.mp h with ⟨hy, hys⟩
    simp only [insertByDesc]
    by_cases hxy : key x ≤ key y
    · simp only [hxy, if_true, List.filter_cons]
      rw [ih hys]
      by_cases hx : key x = v <;> by_cases hyv : key y = v <;>
        simp [hx, hyv]
    · push_neg at hxy
      rw [if_neg hxy.not_le]
      by_cases hx : key x = v
      · have hnil : (y :: ys).filter (fun z => decide (key z = v)) = [] := by
          refine filter_eq_nil_of_forall_lt key v (y :: ys) ?_
          intro a ha
          rcases List.mem_cons.mp ha with h' | h'
          · rw [h', ← hx]; exact hxy
          · calc key a ≤ key y := hy a h'
              _ < key x := hxy
              _ = v := hx
        have hstep : (x :: y :: ys).filter (fun z => decide (key z = v)) =
            x :: (y :: ys).filter (fun z => decide (key z = v)) := by
          simp [List.filter_cons, hx]
        rw [if_pos hx, hstep, hnil]
        simp
      · have hstep : (x :: y :: ys).filter (fun z => decide (key z = v)) =
            (y :: ys).filter (fun z => decide (key z = v)) := by
          simp [List.filter_cons, hx]
        rw [if_neg hx, hstep]

/-- Stability of the full sort: filtering at any fixed score value commutes
with `sortByDesc`, i.e. equal-key elements keep their input order. -/
theorem filter_sortByDesc (key : α → ℚ) (v : ℚ) (l : List α) :
    (sortByDesc key l).filter (fun y => decide (key y = v)) =
      l.filter (fun y => decide (key y = v)) := by
  have key' : ∀ (l acc : List α), SortedDesc key acc →
      ((l.foldl (fun acc x => insertByDesc key x acc) acc).filter
          (fun y => decide (key y = v))) =
        acc.filter (fun y => decide (key y = v)) ++
          l.filter (fun y => decide (key y = v)) := by
    intro l
    induction l with
    | nil => intro acc _; simp
    | cons x xs ih =>
      intro acc hacc
      simp only [List.foldl_cons]
      rw [ih (insertByDesc key x acc) (insertByDesc_sorted key x acc hacc)]
      rw [filter_insertByDesc key v x acc hacc]
      by_cases hx : key x = v <;> simp [hx, List.filter_cons]
  simpa using key' l [] (by simp [SortedDesc])

/-! ## Python `max` over a nonempty collection, and `round` -/

/-- `max(...)` over a list (only ever applied to nonempty lists, as in the
source; the `[]` case is arbitrary). -/
def listMax : List ℚ → ℚ
  | [] => 0
  | [x] => x
  | x :: y :: ys => max x (listMax (y :: ys))

theorem le_listMax (l : List ℚ) (a : ℚ) (ha : a ∈ l) : a ≤ listMax l := by
  induction l with
  | nil => simp at ha
  | cons x xs ih =>
    rcases List.mem_cons.mp ha with h | h
    · cases xs with
      | nil => simp [listMax, h]
      | cons y ys => rw [h]; exact le_max_left _ _
    · cases xs with
      | nil => simp at h
      | cons y ys => exact le_trans (ih h) (le_max_right _ _)

/-- Round-half-to-even on rationals (the rounding rule of Python's builtin
`round`, idealised over exact rationals). -/
def roundHalfEven (q : ℚ) : ℤ :=
  if q - ⌊q⌋ < 1/2 then ⌊q⌋
  else if 1/2 < q - ⌊q⌋ then ⌊q⌋ + 1
  else if ⌊q⌋ % 2 = 0 then ⌊q⌋ else ⌊q⌋ + 1

/-- Python `round(q, n)` for `n` decimal digits. -/
def pyRound (q : ℚ) (n : ℕ) : ℚ := (roundHalfEven (q * 10 ^ n) : ℚ) / 10 ^ n

theorem roundHalfEven_nonneg (q : ℚ) (h : 0 ≤ q) : 0 ≤ roundHalfEven q := by
  have hf : (0 : ℤ) ≤ ⌊q⌋ := Int.floor_nonneg.mpr h
  unfold roundHalfEven
  split
  · exact hf
  · split
    · omega
    · split
      · exact hf
      · omega

theorem roundHalfEven_le_int (q : ℚ) (m : ℤ) (h : q ≤ (m : ℚ)) :
    roundHalfEven q ≤ m := by
  have hf : ⌊q⌋ ≤ m := by
    calc ⌊q⌋ ≤ ⌊(m : ℚ)⌋ := Int.floor_le_floor h
      _ = m := Int.floor_intCast m
  unfold roundHalfEven
  split
  · exact hf
  · rename_i hr
    push_neg at hr
    have hlt : ⌊q⌋ < m := by
      rcases lt_or_eq_of_le hf with h' | h'
      · exact h'
      · exfalso
        have hq : q ≤ (⌊q⌋ : ℚ) := by rw [h']; exact_mod_cast h
        have hfl : (⌊q⌋ : ℚ) ≤ q := Int.floor_le q
        linarith
    split
    · omega
    · split <;> omega

theorem pyRound_nonneg (q : ℚ) (n : ℕ) (h : 0 ≤ q) : 0 ≤ pyRound q n := by
  unfold pyRound
  have h10 : (0 : ℚ) < 10 ^ n := by positivity
  have := roundHalfEven_nonneg (q * 10 ^ n) (by positivity)
  have : (0 : ℚ) ≤ (roundHalfEven (q * 10 ^ n) : ℚ) := by exact_mod_cast this
  positivity

theorem pyRound_le_int (q : ℚ) (n : ℕ) (m : ℤ) (h : q ≤ (m : ℚ)) :
    pyRound q n ≤ (m : ℚ) := by
  unfold pyRound
  have h10 : (0 : ℚ) < 10 ^ n := by positivity
  have hx : q * 10 ^ n ≤ ((m * 10 ^ n : ℤ) : ℚ) := by
    push_cast
    exact mul_le_mul_of_nonneg_right h (le_of_lt h10)
  have hr := roundHalfEven_le_int _ _ hx
  have hr' : (roundHalfEven (q * 10 ^ n) : ℚ) ≤ ((m * 10 ^ n : ℤ) : ℚ) := by
    exact_mod_cast hr
  rw [div_le_iff₀ h10]
  push_cast at hr' ⊢
  linarith

/-! ## Score normalisation (`HybridVectorStore._normalize_*_score`) -/

/-- `_normalize_dense_score`: map a raw (cosine-style) similarity into
`[0, 1]` by shifting negatives and clamping. -/
def normalizeDenseScore (score : ℚ) : ℚ :=
  max 0 (min 1 (if score < 0 then (score + 1) / 2 else score))

/-- `_normalize_sparse_score`: rescale a raw BM25 score into `[0, 30]` via
`min(score * 3.0, 30.0)`, rounded to two decimals; nonpositive scores give 0. -/
def normalizeSparseScore (score : ℚ) : ℚ :=
  if score ≤ 0 then 0 else pyRound (min (score * 3) 30) 2

theorem normalizeDenseScore_nonneg (score : ℚ) : 0 ≤ normalizeDenseScore score :=
  le_max_left 0 _

theorem normalizeDenseScore_le_one (score : ℚ) : normalizeDenseScore score ≤ 1 := by
  unfold normalizeDenseScore
  have : min 1 (if score < 0 then (score + 1) / 2 else score) ≤ 1 := min_le_left _ _
  exact max_le (by norm_num) this

theorem normalizeSparseScore_nonneg (score : ℚ) : 0 ≤ normalizeSparseScore score := by
  unfold normalizeSparseScore
  split
  · exact le_refl 0
  · rename_i h
    push_neg at h
    exact pyRound_nonneg _ _ (le_min (by linarith) (by norm_num))

/-! ## `SPLADESearch`: the sparse lexical index -/

/-- First-occurrence deduplication (models both the `seen_terms` set of
`_expand_query` and the insertion order of `Counter` / `set` iteration,
which the model fixes to first-occurrence order). -/
def dedupFirstAux : List String → List String → List String
  | [], _ => []
  | t :: ts, seen =>
    if t ∈ seen then dedupFirstAux ts seen else t :: dedupFirstAux ts (t :: seen)

/-- First-occurrence deduplication of a token list. -/
def dedupFirst (l : List String) : List String := dedupFirstAux l []

/-- State of `SPLADESearch` (`vectordb.py`, `__init__`): BM25 parameters and
the statistics built by `fit`. -/
structure SPLADESearch where
  k1 : ℚ
  b : ℚ
  doc_freqs : List (String × ℕ)
  doc_lens : List ℕ
  avg_doc_len : ℚ
  n_docs : ℕ
  idf : List (String × ℚ)
  term_weights : List (String × List (String × ℚ))
deriving DecidableEq, Repr, Inhabited

/-- `SPLADESearch()` with the default constructor arguments
`k1 = 1.5, b = 0.75`. -/
def SPLADESearch.init : SPLADESearch :=
  { k1 := 1.5, b := 0.75, doc_freqs := [], doc_lens := [], avg_doc_len := 0,
    n_docs := 0, idf := [], term_weights := [] }

/-- One iteration of the document loop in `SPLADESearch.fit`: append the
token length, build the per-document TF weights, bump document frequencies
for every distinct token. -/
def SPLADESearch.fitStep
    (acc : List ℕ × List (String × ℕ) × List (String × List (String × ℚ)))
    (p : String × String) :
    List ℕ × List (String × ℕ) × List (String × List (String × ℚ)) :=
  let tokens := pyTokenize p.2
  let total := tokens.length
  let tw := (dedupFirst tokens).map
    (fun t => (t, if total > 0 then ((tokens.count t : ℚ) / (total : ℚ)) else 0))
  let dfs := (dedupFirst tokens).foldl
    (fun m t => dictInsert t ((dictLookup t m).getD 0 + 1) m) acc.2.1
  (acc.1 ++ [tokens.length], dfs, dictInsert p.1 tw acc.2.2)

/-- `SPLADESearch.fit(documents, doc_ids)`.  Resets `n_docs`, `doc_lens`,
`doc_freqs` and `term_weights`, then walks `zip(doc_ids, documents)`;
finally writes `idf` entries for every term of the new `doc_freqs` INTO the
EXISTING `idf` dict (the source never clears `self.idf`).  `math.log` is the
abstract parameter `log`. -/
def SPLADESearch.fit (log : ℚ → ℚ) (s : SPLADESearch)
    (documents doc_ids : List String) : SPLADESearch :=
  let pairs := doc_ids.zip documents
  let n := documents.length
  let acc := pairs.foldl SPLADESearch.fitStep ([], [], [])
  let lens := acc.1
  let dfs := acc.2.1
  let avg : ℚ := if n > 0 then ((lens.foldl (· + ·) 0 : ℕ) : ℚ) / (n : ℚ) else 0
  { s with
    n_docs := n,
    doc_lens := lens,
    doc_freqs := dfs,
    term_weights := acc.2.2,
    avg_doc_len := avg,
    idf := dfs.foldl
      (fun m e =>
        dictInsert e.1
          (log (((n : ℚ) - (e.2 : ℚ) + 1/2) / ((e.2 : ℚ) + 1/2) + 1)) m)
      s.idf }

/-- The query-term loop of `SPLADESearch.score`, accumulating the total and
the per-term score dict.  Returns `none` exactly when Python would raise
`ZeroDivisionError` (the expression `doc_len / self.avg_doc_len` inside the
denominator is evaluated with `avg_doc_len == 0`). -/
def SPLADESearch.scoreAux (s : SPLADESearch) (docTokens : List String)
    (docTextLower : String) (docLen : ℚ) :
    List (String × ℚ) → ℚ → List (String × ℚ) → Option (ℚ × List (String × ℚ))
  | [], score, tscores => some (score, tscores)
  | (term, w) :: qs, score, tscores =>
    if (pySplitWs term).length > 1 then
      if pySubstr term docTextLower then
        s.scoreAux docTokens docTextLower docLen qs (score + w * 2)
          (dictInsert term (w * 2) tscores)
      else
        s.scoreAux docTokens docTextLower docLen qs score tscores
    else
      match dictLookup term s.idf with
      | none => s.scoreAux docTokens docTextLower docLen qs score tscores
      | some idfv =>
        let tf : ℕ := docTokens.count term
        if tf = 0 then s.scoreAux docTokens docTextLower docLen qs score tscores
        else if s.avg_doc_len = 0 then none
        else
          let denominator : ℚ :=
            (tf : ℚ) + s.k1 * (1 - s.b + s.b * (docLen / s.avg_doc_len))
          let term_score : ℚ :=
            if denominator > 0 then idfv * ((tf : ℚ) * (s.k1 + 1) / denominator) * w
            else 0
          s.scoreAux docTokens docTextLower docLen qs (score + term_score)
            (dictInsert term term_score tscores)

/-- `SPLADESearch.score(query_terms, doc_idx, doc_text)`. -/
def SPLADESearch.score (s : SPLADESearch) (query_terms : List (String × ℚ))
    (doc_idx : ℕ) (doc_text : String) : Option (ℚ × List (String × ℚ)) :=
  let docTokens := pyTokenize doc_text
  let docLen : ℚ :=
    if doc_idx < s.doc_lens.length then ((s.doc_lens.getD doc_idx 0 : ℕ) : ℚ)
    else (docTokens.length : ℚ)
  s.scoreAux docTokens (pyLower doc_text) docLen query_terms 0 []

/-! ## `SPLADESearch._expand_query` -/

/-- The original query tokens, each with weight `2.0`
(`original_terms` in `_expand_query`; duplicates are NOT suppressed here). -/
def originalTerms (query : String) : List (String × ℚ) :=
  (pyTokenize query).map (fun t => (t, 2))

/-- The expansion loop of `_expand_query`: walk the parsed candidate list
with its `enumerate` index `i`; strip/lower each candidate; keep it if
nonempty and unseen, with weight `1.0 / (1 + 0.15*i)`. -/
def addExpansions : List String → ℕ → List String → List (String × ℚ)
  | _, _, [] => []
  | seen, i, t :: ts =>
    if pyLower (pyStrip t) ≠ "" ∧ pyLower (pyStrip t) ∉ seen then
      (pyLower (pyStrip t), 1 / (1 + 0.15 * (i : ℚ))) ::
        addExpansions (pyLower (pyStrip t) :: seen) (i + 1) ts
    else addExpansions seen (i + 1) ts

/-- `SPLADESearch._expand_query(query)`.
`apiKeyConfigured` models `settings.OPENAI_API_KEY` being set; `response`
models the outcome of the chat-completion call (`none` = network error,
exception or non-200 status; `some content` = the returned message text). -/
def expandQuery (apiKeyConfigured : Bool) (response : Option String)
    (query : String) : List (String × ℚ) :=
  let original := originalTerms query
  if apiKeyConfigured = false then original
  else
    match response with
    | none => original
    | some content =>
      let expanded_text := pyStrip content
      let terms := (pySplitComma expanded_text).map (fun t => pyLower (pyStrip t))
      let seen := dedupFirst (pyTokenize query)
      let weighted := seen.map (fun t => (t, (2 : ℚ)))
      (weighted ++ addExpansions seen 0 terms).take 20

/-! ## `SPLADESearch.search` -/

/-- One entry of the result list of `SPLADESearch.search`. -/
structure SpladeResult where
  idx : ℕ
  doc_id : String
  score : ℚ
  matched_terms : List String
deriving DecidableEq, Repr, Inhabited

/-- The `enumerate(zip(documents, doc_ids))` scoring loop of
`SPLADESearch.search`: keep only strictly positive scores. -/
def SPLADESearch.searchAux (s : SPLADESearch) (qts : List (String × ℚ)) :
    ℕ → List (String × String) → Option (List SpladeResult)
  | _, [] => some []
  | idx, (doc, doc_id) :: rest => do
    let r ← s.score qts idx doc
    let tail ← s.searchAux qts (idx + 1) rest
    if r.1 > 0 then
      some ({ idx := idx, doc_id := doc_id, score := r.1,
              matched_terms := (r.2.map Prod.fst).take 5 } :: tail)
    else some tail

/-- `SPLADESearch.search(query, documents, doc_ids, top_k)`: expand the
query, score every document, keep positive scores, stable-sort descending,
truncate. -/
def SPLADESearch.search (apiKey : Bool) (resp : Option String)
    (s : SPLADESearch) (query : String) (documents doc_ids : List String)
    (top_k : ℕ) : Option (List SpladeResult) := do
  let qts := expandQuery apiKey resp query
  let rs ← s.searchAux qts 0 (documents.zip doc_ids)
  some ((sortByDesc (fun r => r.score) rs).take top_k)

/-! ## `HybridVectorStore` -/

/-- A stored document/chunk (`self.documents` entries:
`{id, text, embedding, metadata}`). -/
structure Doc where
  id : String
  text : String
  embedding : Option (List ℚ)
  metadata : List (String × String)
deriving DecidableEq, Repr, Inhabited

/-- A point returned by the Qdrant `query_points` oracle: id, native score,
payload text and remaining payload. -/
structure QPoint where
  id : String
  score : ℚ
  text : String
  metadata : List (String × String)
deriving DecidableEq, Repr, Inhabited

/-- The external collaborators, at exactly the interface boundary the store
observes.

* `apiKey` — whether `settings.OPENAI_API_KEY` is configured (gates query
  expansion).
* `expansion` — outcome of the chat-completion expansion call.
* `embed` — outcome of `get_embedding` for a text (`none` = no key, network
  error or non-200 response).
* `qdrant` — `some oracle` when Qdrant is usable and `query_points` answers;
  `none` when Qdrant is unavailable or the query raised (both fall back to
  the in-memory path).
* `cosine` — the floating-point cosine similarity of the in-memory fallback
  (abstract: square roots are irrational; every claim below holds for an
  arbitrary value). -/
structure Env where
  apiKey : Bool
  expansion : Option String
  embed : String → Option (List ℚ)
  qdrant : Option (List ℚ → ℕ → List QPoint)
  cosine : List ℚ → List ℚ → ℚ

/-- A result dict produced by the store's search functions. -/
structure SearchResult where
  id : String
  text : String
  dense_score : Option ℚ
  sparse_score : Option ℚ
  score : ℚ
  metadata : List (String × String)
  matched_terms : List String
  search_engine : String
deriving DecidableEq, Repr, Inhabited

/-- The mutable state of `HybridVectorStore` that retrieval reads:
the local document list, the SPLADE index, and the `_splade_fitted` flag. -/
structure Store where
  documents : List Doc
  splade : SPLADESearch
  fitted : Bool
deriving Inhabited

/-- `HybridVectorStore.search_dense(query, top_k)`: empty corpus or missing
query embedding give `[]`; otherwise the Qdrant path returns the oracle's
points with normalised scores, and the in-memory fallback scores every
locally cached embedding by cosine similarity, sorts (stable, descending)
and truncates. -/
def searchDense (env : Env) (st : Store) (query : String) (top_k : ℕ) :
    List SearchResult :=
  if st.documents.isEmpty then []
  else
    match env.embed query with
    | none => []
    | some qe =>
      match env.qdrant with
      | some oracle =>
        (oracle qe top_k).map (fun p =>
          { id := p.id, text := p.text,
            dense_score := some (pyRound (normalizeDenseScore p.score) 4),
            sparse_score := none,
            score := pyRound (normalizeDenseScore p.score) 4,
            metadata := p.metadata,
            matched_terms := [], search_engine := "qdrant" })
      | none =>
        (sortByDesc (fun r => r.score)
          (st.documents.filterMap (fun d =>
            d.embedding.map (fun e =>
              { id := d.id, text := d.text,
                dense_score := some (pyRound (normalizeDenseScore (env.cosine qe e)) 4),
                sparse_score := none,
                score := pyRound (normalizeDenseScore (env.cosine qe e)) 4,
                metadata := d.metadata,
                matched_terms := [], search_engine := "in_memory" })))).take top_k

/-- `HybridVectorStore.search_sparse(query, top_k)`. -/
def searchSparse (env : Env) (st : Store) (query : String) (top_k : ℕ) :
    Option (List SearchResult) :=
  if st.documents.isEmpty ∨ st.fitted = false then some []
  else
    match SPLADESearch.search env.apiKey env.expansion st.splade query
      (st.documents.map (fun d => d.text)) (st.documents.map (fun d => d.id))
      (st.documents.map (fun d => d.text)).length with
    | none => none
    | some rs =>
      some ((rs.map (fun r =>
        { id := (st.documents.getD r.idx default).id,
          text := (st.documents.getD r.idx default).text,
          dense_score := none,
          sparse_score := some (normalizeSparseScore r.score),
          score := normalizeSparseScore r.score,
          metadata := (st.documents.getD r.idx default).metadata,
          matched_terms := r.matched_terms,
          search_engine := "splade" })).take top_k)

/-- `dense_scores_map`: id → `dense_score` of each dense result. -/
def denseMapOf (denseResults : List SearchResult) : List (String × ℚ) :=
  dictOfList (denseResults.map (fun r => (r.id, (r.dense_score).getD 0)))

/-- `sparse_scores_map`: id → `sparse_score` of each sparse result. -/
def sparseMapOf (sparseResults : List SearchResult) : List (String × ℚ) :=
  dictOfList (sparseResults.map (fun r => (r.id, (r.sparse_score).getD 0)))

/-- `matched_terms_map`. -/
def mtMapOf (sparseResults : List SearchResult) : List (String × List String) :=
  dictOfList (sparseResults.map (fun r => (r.id, r.matched_terms)))

/-- `max_sparse = max(sparse_scores_map.values()) if sparse_scores_map
else 1.0`. -/
def maxSparseOf (sparseMap : List (String × ℚ)) : ℚ :=
  if sparseMap.isEmpty then 1 else listMax (sparseMap.map (fun p => p.2))

/-- `sparse_scores_normalized`: each sparse score divided by the batch max
(0 if the max is not positive). -/
def normMapOf (sparseMap : List (String × ℚ)) : List (String × ℚ) :=
  dictOfList (sparseMap.map (fun p =>
    (p.1, if maxSparseOf sparseMap > 0 then p.2 / maxSparseOf sparseMap else 0)))

/-- The per-id body of the fusion loop of `search_hybrid`: weighted
combination (`dense*w + sparse_norm*(1-w)`) plus the synergy boost
(`+0.1*min(dense, sparse_norm)` clamped at 1 when both modalities scored
positively), skipping ids that are neither locally stored nor present in
the dense results. -/
def hybridEntry (st : Store) (denseResults : List SearchResult)
    (denseMap sparseMap normMap : List (String × ℚ))
    (mtMap : List (String × List String)) (dense_weight : ℚ)
    (doc_id : String) : Option SearchResult :=
  match
    (match st.documents.find? (fun d => d.id = doc_id) with
     | some d => some (d.text, d.metadata)
     | none =>
       match denseResults.find? (fun r => r.id = doc_id) with
       | some r => some (r.text, r.metadata)
       | none => none) with
  | none => none
  | some (text, metadata) =>
    some { id := doc_id, text := text,
           dense_score := some (pyRound ((dictLookup doc_id denseMap).getD 0) 4),
           sparse_score := some (pyRound ((dictLookup doc_id sparseMap).getD 0) 2),
           score := pyRound
             (if ((dictLookup doc_id denseMap).isSome ∧
                    (dictLookup doc_id denseMap).getD 0 > 0) ∧
                 ((dictLookup doc_id sparseMap).isSome ∧
                    (dictLookup doc_id sparseMap).getD 0 > 0) then
                min ((dictLookup doc_id denseMap).getD 0 * dense_weight +
                      (dictLookup doc_id normMap).getD 0 * (1 - dense_weight) +
                      0.1 * min ((dictLookup doc_id denseMap).getD 0)
                        ((dictLookup doc_id normMap).getD 0)) 1
              else (dictLookup doc_id denseMap).getD 0 * dense_weight +
                    (dictLookup doc_id normMap).getD 0 * (1 - dense_weight)) 4,
           metadata := metadata,
           matched_terms := (dictLookup doc_id mtMap).getD [],
           search_engine := "hybrid" }

/-- The body of `search_hybrid` up to (but not including) the final sort and
truncation: dense and sparse sub-searches over the whole corpus, score maps,
batch-max normalisation of sparse scores, and the fusion loop.

`unionOrder` is the iteration order of the Python expression
`set(dense_scores_map.keys()) | set(sparse_scores_map.keys())`: CPython
iterates a `str` set in hash order, which is unspecified and varies between
processes, so the model takes the enumeration as an explicit parameter. -/
def hybridCombine (env : Env) (unionOrder : List String) (st : Store)
    (query : String) (dense_weight : ℚ) : Option (List SearchResult) :=
  match searchSparse env st query st.documents.length with
  | none => none
  | some sparseResults =>
    some (unionOrder.filterMap
      (hybridEntry st (searchDense env st query st.documents.length)
        (denseMapOf (searchDense env st query st.documents.length))
        (sparseMapOf sparseResults)
        (normMapOf (sparseMapOf sparseResults))
        (mtMapOf sparseResults) dense_weight))

/-- `HybridVectorStore.search_hybrid(query, top_k, dense_weight)`. -/
def searchHybrid (env : Env) (unionOrder : List String) (st : Store)
    (query : String) (top_k : ℕ) (dense_weight : ℚ) :
    Option (List SearchResult) :=
  if st.documents.isEmpty then some []
  else
    (hybridCombine env unionOrder st query dense_weight).map
      (fun cs => (sortByDesc (fun r => r.score) cs).take top_k)

/-- `HybridVectorStore.search(query, top_k, mode, dense_weight)`: dynamic
mode dispatch by string comparison; anything that is neither `"dense"` nor
`"sparse"` falls into the `else:  # hybrid` branch. -/
def storeSearch (env : Env) (unionOrder : List String) (st : Store)
    (query : String) (top_k : ℕ) (mode : String) (dense_weight : ℚ) :
    Option (List SearchResult) :=
  if mode = "dense" then some (searchDense env st query top_k)
  else if mode = "sparse" then searchSparse env st query top_k
  else searchHybrid env unionOrder st query top_k dense_weight

/-! ## Chunking

Both `chunk_text` (`vectordb.py`) and `TextChunker.chunk_by_tokens`
(`chunker.py`) run the same sliding-window `while` loop over a word list:

    while start < len(words):
        end = min(start + size, len(words))
        append words[start:end]
        start = end - overlap
        if start >= len(words) - overlap: break

The loop is modelled with explicit fuel (`none` = fuel exhausted), so that
termination is a provable statement rather than an assumption.  Natural-
number subtraction agrees with Python here for `overlap ≤ size` (the only
regime any claim quantifies over), because then `start` never goes negative. -/

/-- The sliding-window loop, parameterised by fuel. -/
def chunkLoopFuel (words : List String) (size ov : ℕ) :
    ℕ → ℕ → Option (List (List String))
  | 0, _ => none
  | fuel + 1, start =>
    if start < words.length then
      if min (start + size) words.length - ov ≥ words.length - ov then
        some [(words.drop start).take (min (start + size) words.length - start)]
      else
        (chunkLoopFuel words size ov fuel (min (start + size) words.length - ov)).map
          (fun cs => (words.drop start).take (min (start + size) words.length - start) :: cs)
    else some []

/-- `chunk_text(text, chunk_size, overlap)` from `vectordb.py`: empty text
gives `[]`, short texts give the whole text as one chunk, otherwise the
sliding-window loop joined back with single spaces. -/
def chunk_text (fuel : ℕ) (text : String) (chunk_size overlap : ℕ) :
    Option (List String) :=
  if text = "" then some []
  else if (pySplitWs text).length ≤ chunk_size then some [text]
  else
    (chunkLoopFuel (pySplitWs text) chunk_size overlap fuel 0).map
      (fun cs => cs.map (fun c => String.intercalate " " c))

/-- `TextChunker.chunk_by_tokens` from `chunker.py`, at word level: the
source first applies `clean_text` (regex removal of reference markers, URLs
and whitespace normalisation — the identity on plain single-space-separated
word sequences such as the inputs the claims quantify over) and splits into
words; it then derives the window sizes by `int(chunk_size / 1.3)` and
`int(overlap / 1.3)` — modelled exactly as `⌊n·10/13⌋`, which agrees with
the float computation for all the magnitudes involved here — and runs the
same sliding-window loop.  Chunks are returned as word lists; the source
joins them with single spaces into `TextChunk.text`. -/
def chunkByTokensWords (fuel : ℕ) (words : List String)
    (chunk_size overlap : ℕ) : Option (List (List String)) :=
  let words_per_chunk := chunk_size * 10 / 13
  let words_overlap := overlap * 10 / 13
  if words.isEmpty then some []
  else chunkLoopFuel words words_per_chunk words_overlap fuel 0

/-- With `overlap < size`, fuel `words.length - start + 1` suffices: the
window start strictly increases every non-final iteration. -/
theorem chunkLoopFuel_isSome (words : List String) (size ov : ℕ)
    (hov : ov < size) :
    ∀ (fuel start : ℕ), words.length - start < fuel →
      (chunkLoopFuel words size ov fuel start).isSome = true := by
  intro fuel
  induction fuel with
  | zero => intro start h; omega
  | succ f ih =>
    intro start h
    unfold chunkLoopFuel
    split
    · rename_i hstart
      split
      · simp
      · rename_i hbreak
        push_neg at hbreak
        have hmin : min (start + size) words.length = start + size := by
          rcases le_or_lt (start + size) words.length with hc | hc
          · exact min_eq_left hc
          · exfalso
            have : min (start + size) words.length = words.length :=
              min_eq_right (le_of_lt hc)
            omega
        have hrec := ih (min (start + size) words.length - ov) (by omega)
        rcases Option.isSome_iff_exists.mp hrec with ⟨cs, hcs⟩
        simp [hcs]
    · simp

/-! ## Concrete environments and stores used by witnesses and counterexamples -/

/-- An environment with no collaborator available: no API key, expansion and
embedding calls fail, Qdrant unavailable.  (The abstract cosine value is
irrelevant on these paths.) -/
def envNoNet : Env :=
  { apiKey := false, expansion := none, embed := fun _ => none,
    qdrant := none, cosine := fun _ _ => 0 }

/-- A store holding one chunk, with the SPLADE index fitted over it.  The
abstract `log` is instantiated with the constant-1 function; the properties
proved on this store (dispatch, ordering, degradation) are independent of
the choice. -/
def stOneDoc : Store :=
  { documents := [{ id := "1", text := "aa bb", embedding := none, metadata := [] }],
    splade := SPLADESearch.fit (fun _ => 1) SPLADESearch.init ["aa bb"] ["1"],
    fitted := true }

/-- A store holding two chunks with identical text (hence tied sparse and
fused scores), SPLADE fitted over both. -/
def stTwoDocs : Store :=
  { documents :=
      [{ id := "1", text := "aa bb", embedding := none, metadata := [] },
       { id := "2", text := "aa bb", embedding := none, metadata := [] }],
    splade := SPLADESearch.fit (fun _ => 1) SPLADESearch.init ["aa bb", "aa bb"] ["1", "2"],
    fitted := true }

/-! ## Claim C10 — termination of `chunk_text` -/

/-- **C10.**  `chunk_text(text, chunk_size, overlap)` terminates and returns
a finite list for every input text whenever `overlap < chunk_size`: fuel
`len(words) + 1` always suffices, because each non-final iteration advances
`start` to `end − overlap ≥ start + (chunk_size − overlap) ≥ start + 1`.
There is no guard for `overlap ≥ chunk_size`: the second conjunct exhibits
the loop running forever (every finite fuel is exhausted) on a 5-word text
with `chunk_size = overlap = 2`, so termination rests entirely on the
precondition. -/
theorem chunk_text_terminates :
    (∀ (text : String) (chunk_size overlap : ℕ), overlap < chunk_size →
      (chunk_text ((pySplitWs text).length + 1) text chunk_size overlap).isSome = true) ∧
    (∀ fuel, chunkLoopFuel (List.replicate 5 "w") 2 2 fuel 0 = none) := by
  constructor
  · intro text cs ov h
    unfold chunk_text
    split
    · simp
    · split
      · simp
      · have hs := chunkLoopFuel_isSome (pySplitWs text) cs ov h
          ((pySplitWs text).length + 1) 0 (by omega)
        rcases Option.isSome_iff_exists.mp hs with ⟨cs', hcs⟩
        simp [hcs]
  · intro fuel
    induction fuel with
    | zero => rfl
    | succ f ih =>
      unfold chunkLoopFuel
      simp only [List.length_replicate]
      norm_num
      exact ih

/-- Witness for C10: a concrete run of the sliding-window loop with
`overlap = 1 < 2 = chunk_size` succeeds. -/
theorem chunk_text_terminates_witness :
    (chunk_text ((pySplitWs "a b c d e").length + 1) "a b c d e" 2 1).isSome = true :=
  chunk_text_terminates.1 "a b c d e" 2 1 (by norm_num)

/-! ## Claim C9 — `chunk_by_tokens` window sizes -/

set_option maxRecDepth 20000 in
/-- **C9 (amended).**  `chunk_by_tokens` is deterministic (it is a pure
function of its input), but on a text of 500 identical whitespace-separated
words with `chunk_size=100, overlap=20` the internal `int(·/1.3)` token→word
conversion makes every chunk except the last contain exactly
`int(100/1.3) = 76` words with an `int(20/1.3) = 15`-word overlap between
neighbours — not 100 words and a 20-word overlap.  The exact output: seven
76-word chunks followed by one 73-word chunk. -/
theorem chunk_by_tokens_500_words :
    chunkByTokensWords 501 (List.replicate 500 "w") 100 20 =
      some (List.replicate 7 (List.replicate 76 "w") ++ [List.replicate 73 "w"]) := by
  decide

set_option maxRecDepth 20000 in
/-- Counterexample for C9 as stated: the first chunk (and there are 8
chunks, so it is not the final one) has 76 words, not 100. -/
theorem chunk_by_tokens_chunk_size_counterexample :
    (((chunkByTokensWords 501 (List.replicate 500 "w") 100 20).getD []).headD []).length ≠ 100 ∧
    ((chunkByTokensWords 501 (List.replicate 500 "w") 100 20).getD []).length = 8 := by
  decide

/-! ## Claim C1 — invalid search modes are not rejected -/

/-- **C1 (amended).**  `HybridVectorStore.search` never rejects an
unrecognised mode: for any mode string other than `"dense"` and `"sparse"`
the dynamic dispatch falls through to the `else:  # hybrid` branch and
performs a full hybrid retrieval; no validation error exists anywhere on the
path (the route handler `search_vectordb` likewise forwards the mode string
unchecked). -/
theorem invalid_mode_dispatches_to_hybrid (env : Env) (ord : List String)
    (st : Store) (q : String) (k : ℕ) (dw : ℚ) (mode : String)
    (hd : mode ≠ "dense") (hs : mode ≠ "sparse") :
    storeSearch env ord st q k mode dw = searchHybrid env ord st q k dw := by
  unfold storeSearch
  simp [hd, hs]

/-- Witness for C1 (amended), at the concrete mode string `"fuzzy"`. -/
theorem invalid_mode_dispatches_to_hybrid_witness :
    storeSearch envNoNet ["1"] stOneDoc "aa" 5 "fuzzy" (7/10) =
      searchHybrid envNoNet ["1"] stOneDoc "aa" 5 (7/10) :=
  invalid_mode_dispatches_to_hybrid envNoNet ["1"] stOneDoc "aa" 5 (7/10) "fuzzy"
    (by decide) (by decide)

/-- Counterexample for C1 as stated: with the unrecognised mode string
`"not-a-mode"` the Fusion Engine performs a hybrid retrieval and returns a
nonempty result list instead of rejecting the request. -/
theorem invalid_mode_counterexample :
    storeSearch envNoNet ["1"] stOneDoc "aa" 5 "not-a-mode" (7/10) =
      searchHybrid envNoNet ["1"] stOneDoc "aa" 5 (7/10) ∧
    (storeSearch envNoNet ["1"] stOneDoc "aa" 5 "not-a-mode" (7/10)).getD [] ≠ [] := by
  decide

/-! ## Claim C2 — `fit` leaves residue in `idf` -/

/-- Folding `dictInsert` of transformed values is folding plain inserts of
the transformed pair list. -/
theorem foldl_dictInsert_map (f : String × ℕ → ℚ) (es : List (String × ℕ)) :
    ∀ (d : List (String × ℚ)),
      es.foldl (fun m e => dictInsert e.1 (f e) m) d =
        (es.map (fun e => (e.1, f e))).foldl (fun m e => dictInsert e.1 e.2 m) d := by
  induction es with
  | nil => intro d; rfl
  | cons e es ih => intro d; simp only [List.foldl_cons, List.map_cons]; exact ih _

/-- `fit` never clears `idf`: its lookup is the freshly computed table with
the pre-existing table as fallback. -/
theorem fit_idf_lookup (log : ℚ → ℚ) (s : SPLADESearch)
    (documents doc_ids : List String) (t : String) :
    dictLookup t (SPLADESearch.fit log s documents doc_ids).idf =
      (dictLookup t (SPLADESearch.fit log SPLADESearch.init documents doc_ids).idf).orElse
        (fun _ => dictLookup t s.idf) := by
  show dictLookup t
      ((((doc_ids.zip documents).foldl SPLADESearch.fitStep ([], [], [])).2.1).foldl
        (fun m e => dictInsert e.1
          (log (((documents.length : ℚ) - (e.2 : ℚ) + 1/2) / ((e.2 : ℚ) + 1/2) + 1)) m)
        s.idf) =
    (dictLookup t
      ((((doc_ids.zip documents).foldl SPLADESearch.fitStep ([], [], [])).2.1).foldl
        (fun m e => dictInsert e.1
          (log (((documents.length : ℚ) - (e.2 : ℚ) + 1/2) / ((e.2 : ℚ) + 1/2) + 1)) m)
        [])).orElse
      (fun _ => dictLookup t s.idf)
  rw [foldl_dictInsert_map, foldl_dictInsert_map]
  exact dictLookup_foldl_dictInsert _ _ t

/-- **C2 (amended).**  `fit` on corpus A and then corpus B fully resets
`n_docs`, `doc_lens`, `doc_freqs`, `term_weights` and `avg_doc_len` to the
values a fresh fit of B computes, and rewrites the `idf` entry of every term
of B's vocabulary to the fresh value — but it never deletes `idf` entries,
so terms that occur only in A keep their stale `idf` values: the refit `idf`
lookup is exactly the fresh lookup with the previous index's lookup as a
fallback.  Since `score` consults only `idf` membership (never `doc_freqs`),
the refit state is *not* always the fresh state. -/
theorem fit_refit_characterisation (log : ℚ → ℚ) (A idsA B idsB : List String) :
    (SPLADESearch.fit log (SPLADESearch.fit log SPLADESearch.init A idsA) B idsB).n_docs =
      (SPLADESearch.fit log SPLADESearch.init B idsB).n_docs ∧
    (SPLADESearch.fit log (SPLADESearch.fit log SPLADESearch.init A idsA) B idsB).doc_lens =
      (SPLADESearch.fit log SPLADESearch.init B idsB).doc_lens ∧
    (SPLADESearch.fit log (SPLADESearch.fit log SPLADESearch.init A idsA) B idsB).doc_freqs =
      (SPLADESearch.fit log SPLADESearch.init B idsB).doc_freqs ∧
    (SPLADESearch.fit log (SPLADESearch.fit log SPLADESearch.init A idsA) B idsB).term_weights =
      (SPLADESearch.fit log SPLADESearch.init B idsB).term_weights ∧
    (SPLADESearch.fit log (SPLADESearch.fit log SPLADESearch.init A idsA) B idsB).avg_doc_len =
      (SPLADESearch.fit log SPLADESearch.init B idsB).avg_doc_len ∧
    ∀ t, dictLookup t
        (SPLADESearch.fit log (SPLADESearch.fit log SPLADESearch.init A idsA) B idsB).idf =
      (dictLookup t (SPLADESearch.fit log SPLADESearch.init B idsB).idf).orElse
        (fun _ => dictLookup t (SPLADESearch.fit log SPLADESearch.init A idsA).idf) := by
  exact ⟨rfl, rfl, rfl, rfl, rfl,
    fun t => fit_idf_lookup log (SPLADESearch.fit log SPLADESearch.init A idsA) B idsB t⟩

/-- Counterexample for C2 as stated: fitting `["hello world"]` and then
`["foo bar"]` leaves an `idf` entry for `"hello"`, which a fresh fit of
`["foo bar"]` does not have — the states differ.  (The abstract `log` is
instantiated with the zero function; the residue is a property of the key
set alone, independent of that choice.) -/
theorem fit_refit_counterexample :
    SPLADESearch.fit (fun _ => 0)
        (SPLADESearch.fit (fun _ => 0) SPLADESearch.init ["hello world"] ["a"])
        ["foo bar"] ["b"] ≠
      SPLADESearch.fit (fun _ => 0) SPLADESearch.init ["foo bar"] ["b"] ∧
    dictLookup "hello"
        (SPLADESearch.fit (fun _ => 0)
          (SPLADESearch.fit (fun _ => 0) SPLADESearch.init ["hello world"] ["a"])
          ["foo bar"] ["b"]).idf ≠ none ∧
    dictLookup "hello"
        (SPLADESearch.fit (fun _ => 0) SPLADESearch.init ["foo bar"] ["b"]).idf = none := by
  refine ⟨?_, by decide, by decide⟩
  intro h
  have := congrArg (fun s => dictLookup "hello" s.idf) h
  revert this
  decide

/-! ## Claim C4 — scoring against an empty corpus -/

/-- With an empty `idf` table, the scoring loop ignores every single-token
query term: the membership guard `term not in self.idf` short-circuits
before the BM25 denominator (and its division by `avg_doc_len`) is ever
evaluated. -/
theorem scoreAux_empty_idf (s : SPLADESearch) (h : s.idf = [])
    (docTokens : List String) (docTextLower : String) (docLen : ℚ)
    (qts : List (String × ℚ)) (hq : ∀ p ∈ qts, (pySplitWs p.1).length ≤ 1)
    (sc : ℚ) (ts : List (String × ℚ)) :
    s.scoreAux docTokens docTextLower docLen qts sc ts = some (sc, ts) := by
  induction qts with
  | nil => rfl
  | cons p qs ih =>
    cases p with
    | mk term w =>
      have hp : (pySplitWs term).length ≤ 1 :=
        hq (term, w) (List.mem_cons_self _ _)
      have hq' : ∀ p ∈ qs, (pySplitWs p.1).length ≤ 1 :=
        fun p hp' => hq p (List.mem_cons_of_mem _ hp')
      unfold SPLADESearch.scoreAux
      rw [if_neg (by omega)]
      rw [h]
      show s.scoreAux docTokens docTextLower docLen qs sc ts = some (sc, ts)
      exact ih hq'

/-- **C4 (amended).**  Whenever the index's `idf` table is empty — the state
of a freshly constructed index, hence of every empty-corpus state reachable
through `HybridVectorStore` (which replaces the whole `SPLADESearch` on
`clear` and only refits a nonempty corpus) — `score` applied to a query
list of single-token terms returns total `0` with an empty per-term map,
and the BM25 denominator (whose evaluation would divide by
`avg_doc_len = 0`) is never computed.  The restriction to single-token
terms is forced by the counterexample: multi-word phrase terms bypass the
index entirely and can score `weight × 2.0` even on an empty corpus; and an
`n_docs = 0` state reached by refitting an empty corpus after a nonempty
one retains stale `idf` entries, for which the denominator evaluation with
`avg_doc_len = 0` does raise `ZeroDivisionError` (returns `none` here). -/
theorem score_empty_idf (s : SPLADESearch) (h : s.idf = [])
    (qts : List (String × ℚ)) (hq : ∀ p ∈ qts, (pySplitWs p.1).length ≤ 1)
    (doc_idx : ℕ) (doc_text : String) :
    s.score qts doc_idx doc_text = some (0, []) :=
  scoreAux_empty_idf s h _ _ _ qts hq 0 []

/-- Witness for C4 (amended): a freshly constructed index scores a
single-token query as 0 against a concrete document. -/
theorem score_empty_idf_witness :
    SPLADESearch.init.score [("aa", 1)] 0 "aa bb" = some (0, []) :=
  score_empty_idf SPLADESearch.init rfl [("aa", 1)] (by decide) 0 "aa bb"

/-- Counterexample for C4 as stated: on the freshly constructed (empty
corpus, `n_docs = 0`, `avg_doc_len = 0`) index, the multi-word query term
`"stem cell"` scores `1 × 2.0 = 2 ≠ 0` against a document containing the
phrase — the phrase bonus never consults the corpus statistics. -/
theorem score_empty_corpus_counterexample :
    SPLADESearch.init.score [("stem cell", 1)] 0 "stem cell therapy" =
      some (2, [("stem cell", 2)]) ∧
    SPLADESearch.init.n_docs = 0 ∧
    SPLADESearch.init.avg_doc_len = 0 ∧
    ((2 : ℚ), [("stem cell", (2 : ℚ))]) ≠ ((0 : ℚ), [("stem cell", (2 : ℚ))]) := by
  refine ⟨by decide, rfl, rfl, by decide⟩

/-! ## Claims C5, C6 — the query-expansion contract -/

theorem dedupFirstAux_nodup (l : List String) :
    ∀ seen, (dedupFirstAux l seen).Nodup ∧ ∀ x ∈ dedupFirstAux l seen, x ∉ seen := by
  induction l with
  | nil => intro seen; simp [dedupFirstAux]
  | cons t ts ih =>
    intro seen
    unfold dedupFirstAux
    split
    · exact ih seen
    · rename_i hseen
      rcases ih (t :: seen) with ⟨hnd, hmem⟩
      constructor
      · refine List.nodup_cons.mpr ⟨?_, hnd⟩
        intro hx
        exact (hmem t hx) (List.mem_cons_self _ _)
      · intro x hx
        rcases List.mem_cons.mp hx with h' | h'
        · rw [h']; exact hseen
        · exact fun hc => (hmem x h') (List.mem_cons_of_mem _ hc)

theorem addExpansions_nodup (ts : List String) :
    ∀ seen i, ((addExpansions seen i ts).map Prod.fst).Nodup ∧
      ∀ x ∈ (addExpansions seen i ts).map Prod.fst, x ∉ seen := by
  induction ts with
  | nil => intro seen i; simp [addExpansions]
  | cons t ts ih =>
    intro seen i
    unfold addExpansions
    split
    · rename_i hkeep
      rcases ih (pyLower (pyStrip t) :: seen) (i + 1) with ⟨hnd, hmem⟩
      constructor
      · refine List.nodup_cons.mpr ⟨?_, hnd⟩
        intro hx
        exact (hmem _ hx) (List.mem_cons_self _ _)
      · intro x hx
        rcases List.mem_cons.mp hx with h' | h'
        · rw [h']; exact hkeep.2
        · exact fun hc => (hmem x h') (List.mem_cons_of_mem _ hc)
    · exact ih seen (i + 1)

theorem addExpansions_weights (ts : List String) :
    ∀ seen i, ∀ p ∈ addExpansions seen i ts, 0 < p.2 ∧ p.2 ≤ 1 := by
  induction ts with
  | nil => intro seen i p hp; simp [addExpansions] at hp
  | cons t ts ih =>
    intro seen i p hp
    unfold addExpansions at hp
    split at hp
    · rcases List.mem_cons.mp hp with h' | h'
      · have hden : (0 : ℚ) < 1 + 0.15 * (i : ℚ) := by
          have : (0 : ℚ) ≤ (i : ℚ) := Nat.cast_nonneg i
          nlinarith
        have hden1 : (1 : ℚ) ≤ 1 + 0.15 * (i : ℚ) := by
          have : (0 : ℚ) ≤ (i : ℚ) := Nat.cast_nonneg i
          nlinarith
        rw [h']
        constructor
        · exact div_pos one_pos hden
        · rw [div_le_one hden]; exact hden1
      · exact ih _ _ p h'
    · exact ih _ _ p hp

/-- **C5 (amended).**  When the term-suggestion collaborator is configured
and succeeds, `_expand_query` returns at most 20 terms with no duplicate
term string, the first-occurrence-deduplicated original tokens (each with
weight 2.0) preceding all expansion terms (each with weight in `(0, 1]`);
the 20-term truncation applies to the whole list, so originals beyond
the first 20 are dropped.  When the collaborator is not configured or
fails, the returned list is exactly the raw original token list with weight
2.0 each — with no deduplication and no 20-term cap. -/
theorem expand_query_contract (ak : Bool) (resp : Option String) (q : String) :
    ((ak = false ∨ resp = none) → expandQuery ak resp q = originalTerms q) ∧
    (∀ content, ak = true → resp = some content →
      (expandQuery ak resp q).length ≤ 20 ∧
      ((expandQuery ak resp q).map Prod.fst).Nodup ∧
      ∃ exps, expandQuery ak resp q =
          ((dedupFirst (pyTokenize q)).map (fun t => (t, (2 : ℚ))) ++ exps).take 20 ∧
        ∀ p ∈ exps, 0 < p.2 ∧ p.2 ≤ 1) := by
  constructor
  · rintro (h | h)
    · rw [h]; rfl
    · rw [h]; cases ak <;> rfl
  · intro content hak hresp
    subst hak
    subst hresp
    have hE : expandQuery true (some content) q =
        ((dedupFirst (pyTokenize q)).map (fun t => (t, (2 : ℚ))) ++
          addExpansions (dedupFirst (pyTokenize q)) 0
            ((pySplitComma (pyStrip content)).map (fun t => pyLower (pyStrip t)))).take 20 :=
      rfl
    refine ⟨?_, ?_, ?_⟩
    · rw [hE, List.length_take]
      exact min_le_left _ _
    · rw [hE, List.map_take]
      apply List.Nodup.sublist (List.take_sublist _ _)
      rw [List.map_append]
      rw [show ((dedupFirst (pyTokenize q)).map (fun t => (t, (2 : ℚ)))).map Prod.fst =
          dedupFirst (pyTokenize q) by
        rw [List.map_map]
        exact List.map_id _ ▸ rfl]
      refine List.nodup_append.mpr
        ⟨(dedupFirstAux_nodup _ []).1, (addExpansions_nodup _ _ _).1, ?_⟩
      intro x hx hx'
      exact (addExpansions_nodup _ _ _).2 x hx' hx
    · exact ⟨addExpansions (dedupFirst (pyTokenize q)) 0
        ((pySplitComma (pyStrip content)).map (fun t => pyLower (pyStrip t))),
        hE, addExpansions_weights _ _ _⟩

/-- Witness for C5 (amended): the fallback path on a duplicated query and
the success path on a tiny query. -/
theorem expand_query_contract_witness :
    expandQuery false none "aa aa" = originalTerms "aa aa" ∧
    (expandQuery true (some "bb") "aa").length ≤ 20 :=
  ⟨(expand_query_contract false none "aa aa").1 (Or.inl rfl),
   ((expand_query_contract true (some "bb") "aa").2 "bb" rfl rfl).1⟩

/-- Counterexample for C5 as stated: with the collaborator not configured,
the query `"aa aa"` yields the term `"aa"` twice (no dedup on the fallback
path), and a query of 21 distinct tokens yields 21 terms (no 20-term cap on
the fallback path). -/
theorem expand_query_counterexample :
    expandQuery false none "aa aa" = [("aa", 2), ("aa", 2)] ∧
    ¬ ((expandQuery false none "aa aa").map Prod.fst).Nodup ∧
    (expandQuery false none
        "t01 t02 t03 t04 t05 t06 t07 t08 t09 t10 t11 t12 t13 t14 t15 t16 t17 t18 t19 t20 t21").length =
      21 := by
  refine ⟨by decide, by decide, by decide⟩

/-- The expansion loop, written against the explicit `enumerate` index of
each parsed candidate (spec-side reformulation used to pin down which index
the weight formula consumes). -/
def specExpansions : List String → List (ℕ × String) → List (String × ℚ)
  | _, [] => []
  | seen, (j, t) :: rest =>
    if pyLower (pyStrip t) ≠ "" ∧ pyLower (pyStrip t) ∉ seen then
      (pyLower (pyStrip t), 1 / (1 + 0.15 * (j : ℚ))) ::
        specExpansions (pyLower (pyStrip t) :: seen) rest
    else specExpansions seen rest

theorem addExpansions_eq_specExpansions (ts : List String) :
    ∀ seen i, addExpansions seen i ts = specExpansions seen (ts.enumFrom i) := by
  induction ts with
  | nil => intro seen i; rfl
  | cons t ts ih =>
    intro seen i
    show addExpansions seen i (t :: ts) = specExpansions seen ((i, t) :: ts.enumFrom (i + 1))
    unfold addExpansions specExpansions
    split
    · rw [ih]
    · rw [ih]

/-- **C6 (amended).**  On the success path, each newly added expansion term
receives weight `1.0 / (1 + 0.15·i)` where `i` is the 0-indexed `enumerate`
position of the candidate in the parsed comma-separated list — counting
duplicates, already-present terms and empty candidates — not its position
among the newly added terms. -/
theorem expansion_weights_use_candidate_positions (q content : String) :
    expandQuery true (some content) q =
      ((dedupFirst (pyTokenize q)).map (fun t => (t, (2 : ℚ))) ++
        specExpansions (dedupFirst (pyTokenize q))
          (((pySplitComma (pyStrip content)).map (fun t => pyLower (pyStrip t))).enum)).take 20 := by
  have h := addExpansions_eq_specExpansions
    ((pySplitComma (pyStrip content)).map (fun t => pyLower (pyStrip t)))
    (dedupFirst (pyTokenize q)) 0
  calc expandQuery true (some content) q
      = ((dedupFirst (pyTokenize q)).map (fun t => (t, (2 : ℚ))) ++
          addExpansions (dedupFirst (pyTokenize q)) 0
            ((pySplitComma (pyStrip content)).map (fun t => pyLower (pyStrip t)))).take 20 := rfl
    _ = _ := by rw [h]; rfl

/-- Counterexample for C6 as stated: original query `"crispr"`, candidate
list `"crispr, cas9"`.  The first newly added expansion term `"cas9"` sits
at candidate position 1 (position 0 is the duplicate `"crispr"`), so it
receives `1/(1+0.15·1) = 20/23` — the claim's formula (`i` counted over
newly added terms) would give `1/(1+0.15·0) = 1`. -/
theorem expansion_weight_counterexample :
    expandQuery true (some "crispr, cas9") "crispr" = [("crispr", 2), ("cas9", 20/23)] ∧
    (20 / 23 : ℚ) ≠ 1 / (1 + 0.15 * ((0 : ℕ) : ℚ)) := by
  refine ⟨by decide, by decide⟩

/-! ## Claim C3 — score bounds -/

/-- Every dense result (Qdrant path or in-memory fallback) carries its
normalised-and-rounded score in both `dense_score` and `score`, bounded in
`[0, 1]`. -/
theorem searchDense_bounds (env : Env) (st : Store) (q : String) (k : ℕ) :
    ∀ r ∈ searchDense env st q k,
      r.dense_score = some r.score ∧ 0 ≤ r.score ∧ r.score ≤ 1 := by
  intro r hr
  unfold searchDense at hr
  split at hr
  · simp at hr
  · cases hembed : env.embed q with
    | none => rw [hembed] at hr; simp at hr
    | some qe =>
      rw [hembed] at hr
      cases hq : env.qdrant with
      | some oracle =>
        rw [hq] at hr
        simp only [List.mem_map] at hr
        obtain ⟨p, _, hpr⟩ := hr
        subst hpr
        refine ⟨rfl, pyRound_nonneg _ _ (normalizeDenseScore_nonneg _), ?_⟩
        have := pyRound_le_int (normalizeDenseScore p.score) 4 1
          (by exact_mod_cast normalizeDenseScore_le_one _)
        simpa using this
      | none =>
        rw [hq] at hr
        have hr' := List.mem_of_mem_take hr
        rw [mem_sortByDesc] at hr'
        simp only [List.mem_filterMap] at hr'
        obtain ⟨d, _, hmap⟩ := hr'
        cases he : d.embedding with
        | none => rw [he] at hmap; simp at hmap
        | some e =>
          rw [he] at hmap
          simp only [Option.map_some'] at hmap
          injection hmap with hmap
          rw [← hmap]
          refine ⟨rfl, pyRound_nonneg _ _ (normalizeDenseScore_nonneg _), ?_⟩
          have := pyRound_le_int (normalizeDenseScore (env.cosine qe e)) 4 1
            (by exact_mod_cast normalizeDenseScore_le_one _)
          simpa using this

/-- Every sparse result carries its `[0, 30]`-normalised score in both
`sparse_score` and `score`, and it is nonnegative. -/
theorem searchSparse_bounds (env : Env) (st : Store) (q : String) (k : ℕ)
    (rs : List SearchResult) (h : searchSparse env st q k = some rs) :
    ∀ r ∈ rs, r.sparse_score = some r.score ∧ 0 ≤ r.score := by
  intro r hr
  unfold searchSparse at h
  split at h
  · cases h; simp at hr
  · split at h
    · cases h
    · cases h
      have hr' := List.mem_of_mem_take hr
      simp only [List.mem_map] at hr'
      obtain ⟨x, _, hxr⟩ := hr'
      rw [← hxr]
      exact ⟨rfl, normalizeSparseScore_nonneg _⟩

/-- A successful lookup in `dense_scores_map` is the `[0, 1]`-bounded score
of some dense result. -/
theorem denseMap_value_bounds (env : Env) (st : Store) (q : String) (k : ℕ)
    (i : String) (v : ℚ)
    (h : dictLookup i (denseMapOf (searchDense env st q k)) = some v) :
    0 ≤ v ∧ v ≤ 1 := by
  have hmem := dictLookup_dictOfList _ _ _ h
  simp only [List.mem_map] at hmem
  obtain ⟨rd, hrd, hpair⟩ := hmem
  obtain ⟨hds, h0, h1⟩ := searchDense_bounds env st q k rd hrd
  have hv : v = (rd.dense_score).getD 0 := by
    cases hpair; rfl
  rw [hv, hds]
  exact ⟨h0, h1⟩

/-- A successful lookup in `sparse_scores_map` is nonnegative. -/
theorem sparseMap_value_nonneg (env : Env) (st : Store) (q : String) (k : ℕ)
    (rs : List SearchResult) (hs : searchSparse env st q k = some rs)
    (i : String) (v : ℚ) (h : dictLookup i (sparseMapOf rs) = some v) :
    0 ≤ v := by
  have hmem := dictLookup_dictOfList _ _ _ h
  simp only [List.mem_map] at hmem
  obtain ⟨rsp, hrsp, hpair⟩ := hmem
  obtain ⟨hss, h0⟩ := searchSparse_bounds env st q k rs hs rsp hrsp
  have hv : v = (rsp.sparse_score).getD 0 := by
    cases hpair; rfl
  rw [hv, hss]
  exact h0

/-- Every entry of a dict is bounded by `maxSparseOf` of that dict. -/
theorem le_maxSparseOf (sparseMap : List (String × ℚ)) (p : String × ℚ)
    (hp : p ∈ sparseMap) : p.2 ≤ maxSparseOf sparseMap := by
  unfold maxSparseOf
  split
  · rename_i hempty
    rw [List.isEmpty_iff] at hempty
    rw [hempty] at hp
    simp at hp
  · exact le_listMax _ _ (List.mem_map_of_mem _ hp)

/-- A successful lookup in `sparse_scores_normalized` lies in `[0, 1]`,
provided the raw map's entries are nonnegative. -/
theorem normMap_value_bounds (sparseMap : List (String × ℚ))
    (hvals : ∀ p ∈ sparseMap, 0 ≤ p.2) (i : String) (v : ℚ)
    (h : dictLookup i (normMapOf sparseMap) = some v) : 0 ≤ v ∧ v ≤ 1 := by
  have hmem := dictLookup_dictOfList _ _ _ h
  simp only [List.mem_map] at hmem
  obtain ⟨p, hp, hpair⟩ := hmem
  have hv : v = if maxSparseOf sparseMap > 0 then p.2 / maxSparseOf sparseMap else 0 := by
    cases hpair; rfl
  rw [hv]
  split
  · rename_i hmax
    constructor
    · exact div_nonneg (hvals p hp) (le_of_lt hmax)
    · rw [div_le_one hmax]
      exact le_maxSparseOf sparseMap p hp
  · exact ⟨le_refl 0, by norm_num⟩

/-- Bounds for one fused entry: the reported dense component and the fused
score lie in `[0, 1]` whenever `dense_weight` does. -/
theorem hybridEntry_bounds (env : Env) (st : Store) (q : String) (n : ℕ)
    (sp : List SearchResult) (hs : searchSparse env st q n = some sp)
    (dw : ℚ) (h0 : 0 ≤ dw) (h1 : dw ≤ 1) (i : String) (r : SearchResult)
    (h : hybridEntry st (searchDense env st q n) (denseMapOf (searchDense env st q n))
          (sparseMapOf sp) (normMapOf (sparseMapOf sp)) (mtMapOf sp) dw i = some r) :
    (∀ ds, r.dense_score = some ds → 0 ≤ ds ∧ ds ≤ 1) ∧ 0 ≤ r.score ∧ r.score ≤ 1 := by
  have hdb : 0 ≤ (dictLookup i (denseMapOf (searchDense env st q n))).getD 0 ∧
      (dictLookup i (denseMapOf (searchDense env st q n))).getD 0 ≤ 1 := by
    cases hld : dictLookup i (denseMapOf (searchDense env st q n)) with
    | none => simp
    | some v => simpa using denseMap_value_bounds env st q n i v hld
  have hnb : 0 ≤ (dictLookup i (normMapOf (sparseMapOf sp))).getD 0 ∧
      (dictLookup i (normMapOf (sparseMapOf sp))).getD 0 ≤ 1 := by
    cases hln : dictLookup i (normMapOf (sparseMapOf sp)) with
    | none => simp
    | some v =>
      have hvals : ∀ p ∈ sparseMapOf sp, 0 ≤ p.2 := by
        intro p hp
        have hmem := mem_dictOfList _ _ hp
        simp only [List.mem_map] at hmem
        obtain ⟨rsp, hrsp, hpair⟩ := hmem
        obtain ⟨hss, hge⟩ := searchSparse_bounds env st q n sp hs rsp hrsp
        have hp2 : p.2 = (rsp.sparse_score).getD 0 := by cases hpair; rfl
        rw [hp2, hss]
        exact hge
      simpa using normMap_value_bounds (sparseMapOf sp) hvals i v hln
  have hfused : 0 ≤ (if ((dictLookup i (denseMapOf (searchDense env st q n))).isSome ∧
          (dictLookup i (denseMapOf (searchDense env st q n))).getD 0 > 0) ∧
          ((dictLookup i (sparseMapOf sp)).isSome ∧
          (dictLookup i (sparseMapOf sp)).getD 0 > 0) then
        min ((dictLookup i (denseMapOf (searchDense env st q n))).getD 0 * dw +
              (dictLookup i (normMapOf (sparseMapOf sp))).getD 0 * (1 - dw) +
              0.1 * min ((dictLookup i (denseMapOf (searchDense env st q n))).getD 0)
                ((dictLookup i (normMapOf (sparseMapOf sp))).getD 0)) 1
      else (dictLookup i (denseMapOf (searchDense env st q n))).getD 0 * dw +
            (dictLookup i (normMapOf (sparseMapOf sp))).getD 0 * (1 - dw)) ∧
      (if ((dictLookup i (denseMapOf (searchDense env st q n))).isSome ∧
          (dictLookup i (denseMapOf (searchDense env st q n))).getD 0 > 0) ∧
          ((dictLookup i (sparseMapOf sp)).isSome ∧
          (dictLookup i (sparseMapOf sp)).getD 0 > 0) then
        min ((dictLookup i (denseMapOf (searchDense env st q n))).getD 0 * dw +
              (dictLookup i (normMapOf (sparseMapOf sp))).getD 0 * (1 - dw) +
              0.1 * min ((dictLookup i (denseMapOf (searchDense env st q n))).getD 0)
                ((dictLookup i (normMapOf (sparseMapOf sp))).getD 0)) 1
      else (dictLookup i (denseMapOf (searchDense env st q n))).getD 0 * dw +
            (dictLookup i (normMapOf (sparseMapOf sp))).getD 0 * (1 - dw)) ≤ 1 := by
    have hbase0 : 0 ≤ (dictLookup i (denseMapOf (searchDense env st q n))).getD 0 * dw +
        (dictLookup i (normMapOf (sparseMapOf sp))).getD 0 * (1 - dw) :=
      add_nonneg (mul_nonneg hdb.1 h0) (mul_nonneg hnb.1 (by linarith))
    have hbase1 : (dictLookup i (denseMapOf (searchDense env st q n))).getD 0 * dw +
        (dictLookup i (normMapOf (sparseMapOf sp))).getD 0 * (1 - dw) ≤ 1 := by
      have hda := mul_le_mul_of_nonneg_right hdb.2 h0
      have hna := mul_le_mul_of_nonneg_right hnb.2 (show (0:ℚ) ≤ 1 - dw by linarith)
      rw [one_mul] at hda hna
      linarith
    split
    · constructor
      · refine le_min ?_ (by norm_num)
        have hm : (0:ℚ) ≤ min ((dictLookup i (denseMapOf (searchDense env st q n))).getD 0)
            ((dictLookup i (normMapOf (sparseMapOf sp))).getD 0) := le_min hdb.1 hnb.1
        nlinarith
      · exact min_le_right _ _
    · exact ⟨hbase0, hbase1⟩
  unfold hybridEntry at h
  split at h
  · cases h
  · injection h with h
    rw [← h]
    refine ⟨?_, ?_, ?_⟩
    · intro ds hds
      have : ds = pyRound ((dictLookup i (denseMapOf (searchDense env st q n))).getD 0) 4 := by
        have := hds
        simp only [] at this
        injection this with this
        exact this.symm
      rw [this]
      refine ⟨pyRound_nonneg _ _ hdb.1, ?_⟩
      have := pyRound_le_int ((dictLookup i (denseMapOf (searchDense env st q n))).getD 0) 4 1
        (by exact_mod_cast hdb.2)
      simpa using this
    · exact pyRound_nonneg _ _ hfused.1
    · have := pyRound_le_int _ 4 1 (show _ ≤ ((1:ℤ):ℚ) by exact_mod_cast hfused.2)
      simpa using this

/-- **C3.**  For every query, corpus state and environment, and every
caller-supplied `dense_weight ∈ [0,1]`: every dense-mode result score lies
in `[0,1]`, and every hybrid result's reported dense component and fused
score lie in `[0,1]` (for any enumeration of the id set). -/
theorem search_scores_bounded (env : Env) (ord : List String) (st : Store)
    (q : String) (k : ℕ) (dw : ℚ) (h0 : 0 ≤ dw) (h1 : dw ≤ 1) :
    (∀ r ∈ searchDense env st q k, 0 ≤ r.score ∧ r.score ≤ 1) ∧
    (∀ rs, searchHybrid env ord st q k dw = some rs →
      ∀ r ∈ rs, (∀ ds, r.dense_score = some ds → 0 ≤ ds ∧ ds ≤ 1) ∧
        0 ≤ r.score ∧ r.score ≤ 1) := by
  constructor
  · intro r hr
    exact (searchDense_bounds env st q k r hr).2
  · intro rs hrs r hr
    unfold searchHybrid at hrs
    split at hrs
    · injection hrs with hrs
      rw [← hrs] at hr
      simp at hr
    · cases hc : hybridCombine env ord st q dw with
      | none => rw [hc] at hrs; cases hrs
      | some cs =>
        rw [hc] at hrs
        simp only [Option.map_some'] at hrs
        injection hrs with hrs
        rw [← hrs] at hr
        have hrc : r ∈ cs := by
          have := List.mem_of_mem_take hr
          rwa [mem_sortByDesc] at this
        unfold hybridCombine at hc
        cases hs : searchSparse env st q st.documents.length with
        | none => rw [hs] at hc; cases hc
        | some sp =>
          rw [hs] at hc
          injection hc with hc
          rw [← hc] at hrc
          simp only [List.mem_filterMap] at hrc
          obtain ⟨i, _, hentry⟩ := hrc
          exact hybridEntry_bounds env st q st.documents.length sp hs dw h0 h1 i r hentry

/-- Witness for C3 at a concrete environment, store and
`dense_weight = 0.7`. -/
theorem search_scores_bounded_witness :
    (∀ r ∈ searchDense envNoNet stOneDoc "aa" 5, 0 ≤ r.score ∧ r.score ≤ 1) ∧
    (∀ rs, searchHybrid envNoNet ["1"] stOneDoc "aa" 5 (7/10) = some rs →
      ∀ r ∈ rs, (∀ ds, r.dense_score = some ds → 0 ≤ ds ∧ ds ≤ 1) ∧
        0 ≤ r.score ∧ r.score ≤ 1) :=
  search_scores_bounded envNoNet ["1"] stOneDoc "aa" 5 (7/10)
    (by norm_num) (by norm_num)

/-! ## Claim C7 — ordering of equal-score results -/

/-- **C7 (amended).**  The final sort of `search_hybrid` is Python's stable
sort, so results with exactly equal fused scores appear in the order the
fusion loop produced them — the iteration order of the id set
`set(dense) | set(sparse)`.  That order is CPython's hash-dependent set
order, not insertion order, and (per the counterexample) different set
orders produce differently ordered outputs, so run-to-run determinism of
tie order does not hold. -/
theorem hybrid_ties_follow_enumeration_order (env : Env) (ord : List String)
    (st : Store) (q : String) (k : ℕ) (dw : ℚ) (v : ℚ)
    (cs rs : List SearchResult)
    (hc : hybridCombine env ord st q dw = some cs)
    (hh : searchHybrid env ord st q k dw = some rs) :
    List.Sublist (rs.filter (fun r => decide (r.score = v)))
      (cs.filter (fun r => decide (r.score = v))) := by
  unfold searchHybrid at hh
  split at hh
  · injection hh with hh
    rw [← hh]
    simp
  · rw [hc] at hh
    simp only [Option.map_some'] at hh
    injection hh with hh
    rw [← hh]
    have h1 : List.Sublist
        (((sortByDesc (fun r => r.score) cs).take k).filter (fun r => decide (r.score = v)))
        ((sortByDesc (fun r => r.score) cs).filter (fun r => decide (r.score = v))) :=
      (List.take_sublist _ _).filter _
    rwa [filter_sortByDesc (fun r => r.score) v cs] at h1

/-- The single fused result over `stOneDoc` (dense empty, sparse score 6,
fused `0.3`). -/
def rHyb1 : SearchResult :=
  { id := "1", text := "aa bb", dense_score := some 0, sparse_score := some 6,
    score := 3/10, metadata := [], matched_terms := ["aa"], search_engine := "hybrid" }

/-- Witness for C7 (amended) at a concrete query. -/
theorem hybrid_ties_witness :
    List.Sublist ([rHyb1].filter (fun r => decide (r.score = 3/10)))
      ([rHyb1].filter (fun r => decide (r.score = 3/10))) :=
  hybrid_ties_follow_enumeration_order envNoNet ["1"] stOneDoc "aa" 5 (7/10) (3/10)
    [rHyb1] [rHyb1] (by decide) (by decide)

/-- Counterexample for C7 as stated: two legitimate iteration orders of the
same two-element id set (both permutations of each other) yield outputs
that hold the same results but in different orders, although the two
results have exactly equal fused scores — so the ordering of equal-score
results is not determined by the corpus and query alone, and can differ
run-to-run with CPython's randomised string hashing. -/
theorem hybrid_tie_order_counterexample :
    List.Perm ["1", "2"] ["2", "1"] ∧
    searchHybrid envNoNet ["1", "2"] stTwoDocs "aa" 5 (7/10) ≠
      searchHybrid envNoNet ["2", "1"] stTwoDocs "aa" 5 (7/10) ∧
    List.Perm ((searchHybrid envNoNet ["1", "2"] stTwoDocs "aa" 5 (7/10)).getD [])
      ((searchHybrid envNoNet ["2", "1"] stTwoDocs "aa" 5 (7/10)).getD []) ∧
    (∀ r ∈ (searchHybrid envNoNet ["1", "2"] stTwoDocs "aa" 5 (7/10)).getD [],
      r.score = 3/10) := by
  refine ⟨by decide, by decide, by decide, by decide⟩

/-! ## Claim C8 — graceful degradation when embeddings are unavailable -/

theorem pyRound_zero (n : ℕ) : pyRound 0 n = 0 := by
  unfold pyRound roundHalfEven
  norm_num

/-- The sparse-only fused ranking, written from the spec's own words for
graceful degradation: every chunk found for an enumerated id contributes a
dense component of exactly 0, fused score `sparse_norm × (1 − dense_weight)`
and no synergy boost; the entries are stable-sorted descending and
truncated.  (It shares the enumeration parameter, the sparse sub-search and
the batch-max normalisation with the code — those parts are not what the
claim compares.) -/
def sparseOnlyFused (env : Env) (unionOrder : List String) (st : Store)
    (query : String) (top_k : ℕ) (dw : ℚ) : Option (List SearchResult) :=
  if st.documents.isEmpty then some []
  else
    match searchSparse env st query st.documents.length with
    | none => none
    | some sparseResults =>
      some ((sortByDesc (fun r => r.score)
        (unionOrder.filterMap (fun doc_id =>
          match st.documents.find? (fun d => d.id = doc_id) with
          | none => none
          | some d =>
            some { id := doc_id, text := d.text,
                   dense_score := some 0,
                   sparse_score := some (pyRound
                     ((dictLookup doc_id (sparseMapOf sparseResults)).getD 0) 2),
                   score := pyRound
                     ((dictLookup doc_id (normMapOf (sparseMapOf sparseResults))).getD 0 *
                       (1 - dw)) 4,
                   metadata := d.metadata,
                   matched_terms := (dictLookup doc_id (mtMapOf sparseResults)).getD [],
                   search_engine := "hybrid" }))).take top_k)

/-- **C8.**  If the embedding collaborator returns null for every text, then
dense-mode search returns `[]` without raising, and hybrid search returns
exactly the sparse-only fused ranking: every chunk's dense component is 0
and no synergy boost is applied. -/
theorem hybrid_degrades_to_sparse_only (env : Env) (ord : List String)
    (st : Store) (q : String) (k : ℕ) (dw : ℚ)
    (he : ∀ t, env.embed t = none) :
    searchDense env st q k = [] ∧
    searchHybrid env ord st q k dw = sparseOnlyFused env ord st q k dw := by
  have hdense : ∀ n, searchDense env st q n = [] := by
    intro n
    unfold searchDense
    split
    · rfl
    · rw [he q]
  refine ⟨hdense k, ?_⟩
  unfold searchHybrid sparseOnlyFused hybridCombine
  split
  · rfl
  · rw [hdense st.documents.length]
    cases hs : searchSparse env st q st.documents.length with
    | none => rfl
    | some sp =>
      simp only [Option.map_some']
      congr 2
      refine congrArg _ (List.filterMap_congr ?_)
      intro i _
      unfold hybridEntry
      cases hfind : st.documents.find? (fun d => d.id = i) with
      | none => rfl
      | some d =>
        simp only []
        congr 1
        have hdl : dictLookup i (denseMapOf ([] : List SearchResult)) = none := rfl
        refine SearchResult.mk.injEq _ _ _ _ _ _ _ _ _ _ _ _ _ _ _ _ |>.mpr ?_
        refine ⟨rfl, rfl, ?_, rfl, ?_, rfl, rfl, rfl⟩
        · rw [hdl]
          show some (pyRound ((none : Option ℚ).getD 0) 4) = some 0
          rw [show ((none : Option ℚ).getD 0) = 0 from rfl, pyRound_zero]
        · rw [hdl]
          show pyRound (if ((none : Option ℚ).isSome ∧ ((none : Option ℚ)).getD 0 > 0) ∧
              ((dictLookup i (sparseMapOf sp)).isSome ∧
                (dictLookup i (sparseMapOf sp)).getD 0 > 0) then _ else _) 4 = _
          rw [if_neg (by simp)]
          show pyRound (((none : Option ℚ)).getD 0 * dw +
            (dictLookup i (normMapOf (sparseMapOf sp))).getD 0 * (1 - dw)) 4 = _
          rw [show ((none : Option ℚ).getD 0) = 0 from rfl, zero_mul, zero_add]

/-- Witness for C8 at a concrete store where the sparse side scores. -/
theorem hybrid_degrades_witness :
    searchDense envNoNet stOneDoc "aa" 5 = [] ∧
    searchHybrid envNoNet ["1"] stOneDoc "aa" 5 (7/10) =
      sparseOnlyFused envNoNet ["1"] stOneDoc "aa" 5 (7/10) :=
  hybrid_degrades_to_sparse_only envNoNet ["1"] stOneDoc "aa" 5 (7/10) (fun _ => rfl)
